import Mathlib

/-!
Verification of the silent-shard offline recovery tool.

The development shallowly embeds the two source files of the repository:
* `canonicalize.ts` (`canonicalSerialize`), and
* `index.ts` (`getUint32Array`, `getDerivationPath`, `getEntropy`,
  `decSnapBackup`, `verifyChecksum`, `exportKeys`).

Byte strings are modelled as `List Nat` (each entry a byte value), JavaScript
strings as Lean `String`, arbitrary-precision non-negative integers (JS
`BigInt` values produced by hex parsing) as `Nat`, and fallible JavaScript
code (functions that can `throw`) as `Except String _` where the `String` is
the thrown `Error`'s message.  External cryptographic primitives
(Keccak-256, SLIP-10/BIP-32 derivation, `crypto_secretbox_open_easy`,
secp256k1 `getPublicKey`) and JavaScript runtime services with no bearing on
the verified logic (`TextDecoder`, `JSON.parse`) are parameters, collected in
the `Prims` structure, exactly as the spec treats them (trusted external
primitives with input/output contracts).
-/

/-! ## Generic string and byte helpers (JavaScript runtime semantics) -/

/-- Test for an ASCII hexadecimal digit (`0-9`, `a-f`, `A-F`). -/
def isHexDigit (c : Char) : Bool :=
  (48 ≤ c.toNat && c.toNat ≤ 57) ||
  (97 ≤ c.toNat && c.toNat ≤ 102) ||
  (65 ≤ c.toNat && c.toNat ≤ 70)

/-- Numeric value of an ASCII hexadecimal digit. -/
def hexVal (c : Char) : Nat :=
  if c.toNat ≤ 57 then c.toNat - 48
  else if c.toNat ≤ 70 then c.toNat - 55
  else c.toNat - 87

/-- Lowercase hexadecimal digit character for a value `< 16`. -/
def hexDigitChar (n : Nat) : Char :=
  if n < 10 then Char.ofNat (48 + n) else Char.ofNat (87 + n)

/-- Embedding of JavaScript `s.slice(n)` / `s.substring(n)` for a
non-negative index: drop the first `n` characters.  (JavaScript counts
UTF-16 units; every string sliced by the source is ASCII, where the two
notions coincide.) -/
def jsSlice (s : String) (n : Nat) : String :=
  String.mk (s.data.drop n)

/-- Embedding of JavaScript `s.startsWith(pre)`: character-level test (the
strings tested by the source are ASCII, where characters and UTF-16 units
coincide). -/
def jsStartsWith (s pre : String) : Bool :=
  List.isPrefixOf pre.data s.data

/-- Embedding of JavaScript `s.toLowerCase()` on the ASCII strings the
source lowercases. -/
def jsToLower (s : String) : String :=
  String.mk (s.data.map Char.toLower)

/-- Character-level splitter: `splitDotsGo l cur` appends characters to the
current (reversed) segment and cuts at every dot. -/
def splitDotsGo : List Char → List Char → List String
  | [], cur => [String.mk cur.reverse]
  | c :: rest, cur =>
      if c = '.' then String.mk cur.reverse :: splitDotsGo rest []
      else splitDotsGo rest (c :: cur)

/-- Embedding of JavaScript `s.split(".")`: segments between dots, keeping
empty segments (so the result always has one more entry than dots). -/
def splitDots (s : String) : List String :=
  splitDotsGo s.data []

/-- UTF-8 bytes of a string, as `@metamask/utils`' `stringToBytes` and
`@noble/hashes`' string handling produce them. -/
def stringToBytes (s : String) : List Nat :=
  s.toUTF8.toList.map (fun b => b.toNat)

/-- Embedding of `Uint8Array.prototype.toString()`: the decimal byte values
joined with commas (`[1,2,3]` renders as `"1,2,3"`). -/
def uint8ArrayToString (bs : List Nat) : String :=
  String.intercalate "," (bs.map (fun b => toString b))

/-! ## UTF-16 code-unit order (JavaScript default string comparison)

`Object.keys(object).sort()` sorts with the default comparator, which
compares strings by their UTF-16 code-unit sequences. -/

/-- UTF-16 encoding of a single character: one code unit for values below
`0x10000`, a surrogate pair otherwise. -/
def utf16Char (c : Char) : List Nat :=
  if c.toNat < 65536 then [c.toNat]
  else [55296 + (c.toNat - 65536) / 1024, 56320 + (c.toNat - 65536) % 1024]

/-- UTF-16 code-unit sequence of a string. -/
def utf16Units (s : String) : List Nat :=
  (s.data.map utf16Char).flatten

/-- Lexicographic less-or-equal on lists of naturals. -/
def lexLe : List Nat → List Nat → Bool
  | [], _ => true
  | _ :: _, [] => false
  | a :: as, b :: bs => a < b || (a == b && lexLe as bs)

/-- JavaScript default string order (`a <= b` under the default sort
comparator): lexicographic on UTF-16 code units. -/
def keyLe (a b : String) : Bool :=
  lexLe (utf16Units a) (utf16Units b)

/-! ## The JavaScript value model

`JSValue` covers the JSON-like values reaching `canonicalSerialize`,
together with the two non-serializable sentinels the source treats
specially (`undefined` and symbols).  Finite numbers carry the decimal
rendering `JSON.stringify` would give them (number formatting is a trusted
runtime primitive); `NaN` and the infinities are separate constructors since
the source rejects them before any rendering.  No value of this model has a
`toJSON` method, so the source's `object.toJSON instanceof Function` branch
is never taken and is not modelled. -/

inductive JsNumber where
  | nan : JsNumber
  | inf : Bool → JsNumber
  | finite : String → JsNumber
deriving DecidableEq, Repr

inductive JSValue where
  | vNull : JSValue
  | vBool : Bool → JSValue
  | vNum : JsNumber → JSValue
  | vStr : String → JSValue
  | vArr : List JSValue → JSValue
  | vObj : List (String × JSValue) → JSValue
  | vUndefined : JSValue
  | vSymbol : JSValue

/-- Embedding of the source's sentinel test
`cv === undefined || typeof cv === "symbol"`. -/
def isSentinel : JSValue → Bool
  | .vUndefined => true
  | .vSymbol => true
  | _ => false

/-! ## Key sorting (`Object.keys(object).sort()`)

The source sorts the member keys and then looks each value up; with an
object's necessarily-unique keys this is the same as stably sorting the
member list by key, which is how we embed it. -/

/-- Insert a member into a key-sorted member list (stable insertion). -/
def insertPair (p : String × JSValue) :
    List (String × JSValue) → List (String × JSValue)
  | [] => [p]
  | q :: rest => if keyLe p.1 q.1 then p :: q :: rest else q :: insertPair p rest

/-- Stable insertion sort of a member list by key, embedding
`Object.keys(object).sort()` (JavaScript's sort is stable). -/
def sortPairs : List (String × JSValue) → List (String × JSValue)
  | [] => []
  | p :: rest => insertPair p (sortPairs rest)

theorem sizeOf_insertPair (p : String × JSValue) (l : List (String × JSValue)) :
    sizeOf (insertPair p l) = 1 + sizeOf p + sizeOf l := by
  induction l with
  | nil => simp only [insertPair, List.cons.sizeOf_spec, List.nil.sizeOf_spec]
  | cons q rest ih =>
      simp only [insertPair]
      split
      · simp only [List.cons.sizeOf_spec]
      · simp only [List.cons.sizeOf_spec, ih]; omega

theorem sizeOf_sortPairs (l : List (String × JSValue)) :
    sizeOf (sortPairs l) = sizeOf l := by
  induction l with
  | nil => simp only [sortPairs]
  | cons p rest ih =>
      simp only [sortPairs, sizeOf_insertPair, ih, List.cons.sizeOf_spec]

theorem JSValue.one_le_sizeOf (v : JSValue) : 1 ≤ sizeOf v := by
  cases v <;> simp_arith

theorem one_le_sizeOf_list {α : Type} [SizeOf α] (l : List α) : 1 ≤ sizeOf l := by
  cases l <;> simp_arith

/-! ## JSON string quoting (`JSON.stringify` on strings) -/

/-- Four lowercase hex digits, as in `JSON.stringify`'s `\uXXXX` escapes. -/
def hex4 (n : Nat) : String :=
  String.mk [hexDigitChar (n / 4096 % 16), hexDigitChar (n / 256 % 16),
             hexDigitChar (n / 16 % 16), hexDigitChar (n % 16)]

/-- Escape for one character, per `JSON.stringify`'s string quoting. -/
def jsonEscapeChar (c : Char) : String :=
  if c = '"' then "\\\""
  else if c = '\\' then "\\\\"
  else if c = '\x08' then "\\b"
  else if c = '\x0c' then "\\f"
  else if c = '\n' then "\\n"
  else if c = '\r' then "\\r"
  else if c = '\t' then "\\t"
  else if c.toNat < 32 then "\\u" ++ hex4 c.toNat
  else String.mk [c]

/-- Embedding of `JSON.stringify` applied to a string: quote and escape. -/
def jsonQuote (s : String) : String :=
  "\"" ++ String.join (s.data.map jsonEscapeChar) ++ "\""

/-- Coercion a JavaScript template literal applies to an interpolated value:
`undefined` renders as the text `undefined`, a string as itself. -/
def jsTemplate : Option String → String
  | some s => s
  | none => "undefined"

/-! ## The canonical serializer (`src/canonicalize.ts`)

The result type is `Except String (Option String)`: `throw` for the two
`new Error(...)` throws, and `Option String` because `JSON.stringify`
returns the missing value (not a string) on `undefined` and symbol inputs,
which `canonicalSerialize` passes through at top level. -/

mutual

/-- Embedding of `canonicalSerialize` from `src/canonicalize.ts`. -/
def canonicalSerialize : JSValue → Except String (Option String)
  | .vNum .nan => throw "NaN is not allowed"
  | .vNum (.inf _) => throw "Infinity is not allowed"
  | .vNull => pure (some "null")
  | .vBool b => pure (some (if b then "true" else "false"))
  | .vNum (.finite r) => pure (some r)
  | .vStr s => pure (some (jsonQuote s))
  | .vUndefined => pure none
  | .vSymbol => pure none
  | .vArr elems => do
      let values ← serArr elems 0 ""
      pure (some ("[" ++ values ++ "]"))
  | .vObj members => do
      let values ← serObj (sortPairs members) ""
      pure (some ("\x7b" ++ values ++ "\x7d"))
termination_by v => sizeOf v
decreasing_by
  · simp only [JSValue.vArr.sizeOf_spec]; omega
  · simp only [JSValue.vObj.sizeOf_spec, sizeOf_sortPairs]; omega

/-- Embedding of the array `reduce` in `canonicalSerialize`: `ci` is the
element index (the comma is omitted exactly at index 0), `t` the
accumulator.  A sentinel element is replaced by `null` before the recursive
call. -/
def serArr : List JSValue → Nat → String → Except String String
  | [], _, t => pure t
  | cv :: rest, ci, t => do
      let comma := if ci = 0 then "" else ","
      let value := if isSentinel cv then JSValue.vNull else cv
      let s ← canonicalSerialize value
      serArr rest (ci + 1) (t ++ comma ++ jsTemplate s)
termination_by l _ _ => sizeOf l
decreasing_by
  · have h1 := JSValue.one_le_sizeOf cv
    have h2 := one_le_sizeOf_list rest
    split <;> simp only [List.cons.sizeOf_spec, JSValue.vNull.sizeOf_spec] <;> omega
  · simp only [List.cons.sizeOf_spec]; omega

/-- Embedding of the object `reduce` in `canonicalSerialize`, running over
the key-sorted member list: a member whose value is a sentinel is skipped
entirely; the comma is omitted exactly when the accumulator is empty. -/
def serObj : List (String × JSValue) → String → Except String String
  | [], t => pure t
  | (k, v) :: rest, t =>
      if isSentinel v then serObj rest t
      else do
        let comma := if t.length = 0 then "" else ","
        let ks ← canonicalSerialize (.vStr k)
        let vs ← canonicalSerialize v
        serObj rest (t ++ comma ++ jsTemplate ks ++ ":" ++ jsTemplate vs)
termination_by l _ => sizeOf l
decreasing_by
  · simp only [List.cons.sizeOf_spec]; omega
  · have h1 := JSValue.one_le_sizeOf v
    simp only [List.cons.sizeOf_spec, JSValue.vStr.sizeOf_spec, Prod.mk.sizeOf_spec]
    omega
  · simp only [List.cons.sizeOf_spec, Prod.mk.sizeOf_spec]
    have h1 := one_le_sizeOf_list rest
    omega
  · simp only [List.cons.sizeOf_spec]; omega

end

deriving instance DecidableEq for Except

example : canonicalSerialize (.vArr [.vUndefined, .vBool true, .vSymbol]) =
    .ok (some "[null,true,null]") := by
  simp [canonicalSerialize, serArr, isSentinel]
  decide

example : canonicalSerialize (.vObj [("b", .vStr "y"), ("a", .vStr "x"), ("c", .vSymbol)]) =
    .ok (some "\x7b\"a\":\"x\",\"b\":\"y\"\x7d") := by
  simp [canonicalSerialize, serObj, sortPairs, insertPair, keyLe, utf16Units, utf16Char,
    lexLe, isSentinel]
  decide

/-! ## Hex, base64 and BigInt codecs used by `src/index.ts`

These embed the deterministic pure decoders the source pulls from
`@metamask/utils` (`hexToBytes`, `hexToBigInt`, `bytesToHex`,
`bigIntToBytes`, `bigIntToHex`) and from `libsodium-wrappers`
(`from_hex`, `from_base64`). -/

/-- Bytes from an even-length list of hex digit characters, two digits per
byte (a trailing odd digit never occurs at the call sites). -/
def hexPairsToBytes : List Char → List Nat
  | c1 :: c2 :: rest => (hexVal c1 * 16 + hexVal c2) :: hexPairsToBytes rest
  | _ => []

/-- Embedding of `@metamask/utils`' `isHexString`: an optional `0x` prefix
(case-insensitive, the regex carries the `i` flag) followed by at least one
hex digit. -/
def isHexString (s : String) : Bool :=
  let t := if jsStartsWith s "0x" || jsStartsWith s "0X" then jsSlice s 2 else s
  !t.data.isEmpty && t.data.all isHexDigit

/-- Embedding of `@metamask/utils`' `remove0x`. -/
def remove0x (s : String) : String :=
  if jsStartsWith s "0x" || jsStartsWith s "0X" then jsSlice s 2 else s

/-- Embedding of `@metamask/utils`' `hexToBytes`: `"0x"` alone decodes to no
bytes; otherwise the value must be a hex string; an odd digit count is
normalized with a leading zero. -/
def hexToBytes (s : String) : Except String (List Nat) :=
  if jsToLower s = "0x" then .ok []
  else if !isHexString s then .error "Value must be a hexadecimal string."
  else
    let stripped := jsToLower (remove0x s)
    let normalized := if stripped.length % 2 = 0 then stripped else "0" ++ stripped
    .ok (hexPairsToBytes normalized.data)

/-- Embedding of JavaScript `BigInt("0x" + digits)`: requires at least one
digit, all hexadecimal; the result is a non-negative arbitrary-precision
integer, modelled as `Nat`. -/
def jsBigIntOfHex (digits : String) : Except String Nat :=
  if !digits.data.isEmpty && digits.data.all isHexDigit then
    .ok (digits.data.foldl (fun acc c => acc * 16 + hexVal c) 0)
  else .error "Cannot convert to a BigInt"

/-- Embedding of `@metamask/utils`' `hexToBigInt`: `BigInt(add0x(hex))`. -/
def hexToBigInt (s : String) : Except String Nat :=
  jsBigIntOfHex (remove0x s)

/-- Lowercase hex digits of the bytes, two per byte. -/
def bytesToHexDigits (bs : List Nat) : String :=
  String.mk ((bs.map (fun b => [hexDigitChar (b / 16), hexDigitChar (b % 16)])).flatten)

/-- Embedding of `@metamask/utils`' `bytesToHex`: `0x`-prefixed lowercase
hex rendering of a byte array. -/
def bytesToHex (bs : List Nat) : String :=
  "0x" ++ bytesToHexDigits bs

/-- Minimal lowercase hex rendering of a non-negative integer, as JavaScript
`value.toString(16)` produces (a single `0` for zero). -/
def natToHexMinimal (n : Nat) : String :=
  String.mk (Nat.toDigits 16 n)

/-- Embedding of `@metamask/utils`' `bigIntToHex` for the non-negative
values arising here: `0x` plus the minimal hex rendering. -/
def bigIntToHex (n : Nat) : String :=
  "0x" ++ natToHexMinimal n

/-- Embedding of `@metamask/utils`' `bigIntToBytes` for non-negative values:
the minimal big-endian byte rendering (hex digits, padded to even length). -/
def bigIntToBytes (n : Nat) : List Nat :=
  let digits := natToHexMinimal n
  hexPairsToBytes (if digits.length % 2 = 0 then digits else "0" ++ digits).data

/-- Embedding of `sodium.from_hex`: hex digits only, in pairs. -/
def sodiumFromHex (s : String) : Except String (List Nat) :=
  if !s.data.all isHexDigit then .error "invalid input"
  else if s.length % 2 = 1 then .error "incomplete input"
  else .ok (hexPairsToBytes s.data)

/-- Value of one base64 character in the given alphabet. -/
def b64Val (urlsafe : Bool) (c : Char) : Option Nat :=
  if 65 ≤ c.toNat ∧ c.toNat ≤ 90 then some (c.toNat - 65)
  else if 97 ≤ c.toNat ∧ c.toNat ≤ 122 then some (c.toNat - 71)
  else if 48 ≤ c.toNat ∧ c.toNat ≤ 57 then some (c.toNat + 4)
  else if urlsafe then
    if c = '-' then some 62 else if c = '_' then some 63 else none
  else
    if c = '+' then some 62 else if c = '/' then some 63 else none

/-- Reassemble 6-bit base64 values into bytes; a single leftover value is
invalid, and nonzero trailing bits are rejected (libsodium is strict). -/
def b64Groups : List Nat → Except String (List Nat)
  | [] => .ok []
  | [_] => .error "invalid input"
  | [a, b] => if b % 16 = 0 then .ok [a * 4 + b / 16] else .error "invalid input"
  | [a, b, c] =>
      if c % 4 = 0 then .ok [a * 4 + b / 16, b % 16 * 16 + c / 4]
      else .error "invalid input"
  | a :: b :: c :: d :: rest => do
      let tail ← b64Groups rest
      .ok ([a * 4 + b / 16, b % 16 * 16 + c / 4, c % 4 * 64 + d] ++ tail)

/-- Embedding of `sodium.from_base64` with the given variant: `urlsafe`
selects the `-`/`_` alphabet (the default `URLSAFE_NO_PADDING` variant),
`padded` selects `ORIGINAL`-style trailing `=` padding. -/
def sodiumFromBase64 (urlsafe padded : Bool) (s : String) : Except String (List Nat) := do
  let data := s.data
  let eqCount := (data.reverse.takeWhile (fun c => c = '=')).length
  if padded && (decide (eqCount > 2) || decide (data.length % 4 ≠ 0)) then
    .error "invalid input"
  else do
    let core := data.take (data.length - (if padded then eqCount else 0))
    let vals ← core.mapM (fun c =>
      match b64Val urlsafe c with
      | some v => Except.ok v
      | none => Except.error "invalid input")
    b64Groups vals

/-! ## Data model of `src/index.ts` -/

structure WalletEntry where
  address : String
  keyshare : String
  remote : String
deriving DecidableEq, Repr

/-- Embedding of the `SnapBackup` type.  `version` is a JSON integer
(`JSON.stringify` renders safe-range integers in plain decimal, which
`toString` on `Int` matches). -/
structure SnapBackup where
  version : Int
  time : String
  wallet : List WalletEntry
  hash : String
deriving DecidableEq, Repr

structure ExportedKey where
  address : String
  privateKey : String
deriving DecidableEq, Repr

/-- Trusted external primitives of the source (spec §6), as pure functions:
Keccak-256; SLIP-10/BIP-32 private-key derivation over secp256k1 from a
derivation-path string list (`none` when the node has no private key);
`crypto_secretbox_open_easy` (arguments: ciphertext, nonce, key; `Except`
for its throw on authentication failure); `TextDecoder.decode`; `JSON.parse`
(`Except` for its throw on malformed input); and secp256k1 `getPublicKey`
(uncompressed; `Except` for its throw on an invalid scalar). -/
structure Prims where
  keccak256 : List Nat → List Nat
  slip10Derive : List String → Option String
  secretboxOpen : List Nat → List Nat → List Nat → Except String (List Nat)
  utf8Decode : List Nat → String
  jsonParse : String → Except String JSValue
  getPublicKey : List Nat → Except String (List Nat)

/-! ## Entropy derivation (`getUint32Array`, `getDerivationPath`,
`getEntropy`) -/

def MAGIC_VALUE : Nat := 0xd36e6170
def HARDENED_VALUE : Nat := 0x80000000
def SNAP_ID : String := "npm:@silencelaboratories/silent-shard-snap"

/-- Embedding of `DataView.getUint32` (big-endian, the default) at byte
offset `off` of a byte list. -/
def getUint32 (bytes : List Nat) (off : Nat) : Nat :=
  ((bytes.getD off 0 * 256 + bytes.getD (off + 1) 0) * 256 +
    bytes.getD (off + 2) 0) * 256 + bytes.getD (off + 3) 0

/-- Embedding of `getUint32Array` from `src/index.ts`: the eight big-endian
32-bit words of a 32-byte hash, each with its most significant bit set.  The
`% 2 ^ 32` mirrors the 32-bit truncation of `(uint32 | 0x80000000) >>> 0`
(a no-op for genuine byte input). -/
def getUint32Array (hash : List Nat) : List Nat :=
  (List.range 8).map (fun index =>
    Nat.lor (getUint32 hash (index * 4) % 4294967296) HARDENED_VALUE)

/-- Embedding of `getDerivationPath` from `src/index.ts`: each index is
rendered as `bip32:<index - 0x80000000>'` (every index passed in has its top
bit set, so the subtraction is exact). -/
def getDerivationPath (indices : List Nat) : List String :=
  indices.map (fun index => "bip32:" ++ toString (index - HARDENED_VALUE) ++ "\x27")

/-- Embedding of `getEntropy` from `src/index.ts`. -/
def getEntropy (prims : Prims) (mnemonicPhrase snapId salt : String) :
    Except String String :=
  let snapIdBytes := stringToBytes snapId
  let saltBytes := stringToBytes salt
  let hash := prims.keccak256 (snapIdBytes ++ prims.keccak256 saltBytes)
  let computedDerivationPath := getUint32Array hash
  let derivationPath :=
    ("bip39:" ++ mnemonicPhrase) ::
      getDerivationPath (MAGIC_VALUE :: computedDerivationPath)
  match prims.slip10Derive derivationPath with
  | some privateKey => .ok privateKey
  | none => .error "Failed to derive private key."

/-! ## Share decryption (`decSnapBackup`) -/

def crypto_secretbox_KEYBYTES : Nat := 32

/-- Body of the `try` block of `decSnapBackup` from `src/index.ts`: the
3-component shape check, the hex/base64 decodes, and the authenticated
open.  Note that the shape check sits inside the `try`. -/
def decSnapBackupBody (prims : Prims) (entropyHex snapBackup : String) :
    Except String (List Nat) := do
  let entropyHex :=
    if jsStartsWith entropyHex "0x" then jsSlice entropyHex 2 else entropyHex
  let array := splitDots snapBackup
  if array.length ≠ 3 then throw "Invalid backup data"
  else do
    let encKey := (← sodiumFromHex entropyHex).take crypto_secretbox_KEYBYTES
    let nonce ← sodiumFromHex (array.getD 1 "")
    let cipherMessage ← sodiumFromBase64 true false (array.getD 2 "")
    prims.secretboxOpen cipherMessage nonce encKey

/-- Embedding of `decSnapBackup` from `src/index.ts`: the whole body runs
inside a `try`/`catch` that rewraps any failure — including the shape
check's — as `Failed to decrypt backup data: <cause>`. -/
def decSnapBackup (prims : Prims) (entropyHex snapBackup : String) :
    Except String (List Nat) :=
  match decSnapBackupBody prims entropyHex snapBackup with
  | .ok r => .ok r
  | .error e => .error ("Failed to decrypt backup data: " ++ e)

/-! ## Checksum verification (`verifyChecksum`) -/

/-- Canonical-value projection of a `SnapBackup` with the `hash` member
removed, as the rest-destructuring `let { hash: checksum, ...backupWithoutHash }`
produces it (member order is irrelevant: the encoder sorts keys). -/
def walletEntryValue (w : WalletEntry) : JSValue :=
  .vObj [("address", .vStr w.address), ("keyshare", .vStr w.keyshare),
         ("remote", .vStr w.remote)]

def backupWithoutHashValue (b : SnapBackup) : JSValue :=
  .vObj [("version", .vNum (.finite (toString b.version))), ("time", .vStr b.time),
         ("wallet", .vArr (b.wallet.map walletEntryValue))]

/-- The `if (checksum.startsWith("0x")) checksum = checksum.slice(2)`
normalization in `verifyChecksum`. -/
def stripLeading0x (s : String) : String :=
  if jsStartsWith s "0x" then jsSlice s 2 else s

/-- Embedding of `verifyChecksum` from `src/index.ts`.  `keccak256` hashes
the UTF-8 bytes of its string input; `bytesToHex` prefixes `0x`, so the
`hash.slice(2)` strips exactly that prefix.  The `none` branch models the
`TypeError` noble's keccak would throw on a non-string input (unreachable:
the serializer always yields a string on an object input). -/
def verifyChecksum (keccak256 : List Nat → List Nat) (backup : SnapBackup) :
    Except String Bool := do
  let canonicalJson ← canonicalSerialize (backupWithoutHashValue backup)
  match canonicalJson with
  | none => throw "string expected"
  | some json =>
    let hash := bytesToHex (keccak256 (stringToBytes json))
    let checksum := stripLeading0x backup.hash
    pure (jsSlice hash 2 == checksum)

/-! ## Key export (`exportKeys`) -/

/-- Embedding of JavaScript member access `v[k]` as it behaves on
JSON-derived data: a missing member of an object reads as `undefined`;
reading a property of `undefined` or `null` throws a `TypeError`. -/
def jsGet (v : JSValue) (k : String) : Except String JSValue :=
  match v with
  | .vObj members =>
      .ok (((members.find? (fun p => p.1 == k)).map Prod.snd).getD .vUndefined)
  | .vUndefined => .error "Cannot read properties of undefined"
  | .vNull => .error "Cannot read properties of null"
  | _ => .ok .vUndefined

/-- Chained member access `v[k1][k2]`, as in `snapKeyshare.keyShareData.x1`
and `appData.x2.scalar`. -/
def jsGet2 (v : JSValue) (k1 k2 : String) : Except String JSValue := do
  jsGet (← jsGet v k1) k2

/-- Application of `hexToBigInt` to a field read from parsed JSON: the
source annotates the field as `string`; on a non-string, `add0x` inside
`hexToBigInt` would throw a `TypeError`, modelled here as an error. -/
def hexToBigIntValue (v : JSValue) : Except String Nat :=
  match v with
  | .vStr s => hexToBigInt s
  | _ => .error "Cannot convert value to a BigInt"

/-- Group order of secp256k1, the value of `secp256k1.curve.n` exported by
`@metamask/key-tree`. -/
def secp256k1n : Nat :=
  0xFFFFFFFFFFFFFFFFFFFFFFFFFFFFFFFEBAAEDCE6AF48A03BBFD25E8CD0364141

/-- The argument expression `hexToBytes(salt).toString()` that `exportKeys`
passes as the salt of `getEntropy`, where `salt` is the first `.`-delimited
segment of the entry's `remote` field: the comma-separated decimal rendering
of the hex-decoded bytes (or the `hexToBytes` failure). -/
def entropySalt (walletBackup : WalletEntry) : Except String String := do
  let saltBytes ← hexToBytes ((splitDots walletBackup.remote).getD 0 "")
  pure (uint8ArrayToString saltBytes)

/-- The portion of the loop body after the entropy derivation: decrypt the
remote share, parse and combine the two scalar shares, recompute the
address, and build the entry's `ExportedKey`. -/
def processEntryTail (prims : Prims) (walletBackup : WalletEntry)
    (entropyHex : String) : Except String ExportedKey := do
  let data ← decSnapBackup prims entropyHex walletBackup.remote
  let a := prims.utf8Decode data
  let snapKeyshare ← prims.jsonParse a
  let x1V ← jsGet2 snapKeyshare "keyShareData" "x1"
  let x1 ← hexToBigIntValue x1V
  let app ← sodiumFromBase64 false true walletBackup.keyshare
  let appData ← prims.jsonParse (prims.utf8Decode app)
  let x2V ← jsGet2 appData "x2" "scalar"
  let x2 ← hexToBigIntValue x2V
  let privateKey := x1 * x2 % secp256k1n
  let publicKey ← prims.getPublicKey (bigIntToBytes privateKey)
  let _address := jsSlice (bytesToHex (prims.keccak256 (publicKey.drop 1))) 26
  pure { address := walletBackup.address, privateKey := bigIntToHex privateKey }

/-- Embedding of one iteration of the `for` loop of `exportKeys` from
`src/index.ts` (the per-wallet-entry processing): compute the salt from the
`remote` field, derive entropy, then run the decrypt-and-combine tail.
`console.assert` on the recomputed address only logs; it never throws, so it
has no effect in the value model. -/
def processEntry (prims : Prims) (mnemonicPhrase : String)
    (walletBackup : WalletEntry) : Except String ExportedKey := do
  let salt := (splitDots walletBackup.remote).getD 0 ""
  let saltBytes ← hexToBytes salt
  let entropyHex ← getEntropy prims mnemonicPhrase SNAP_ID (uint8ArrayToString saltBytes)
  processEntryTail prims walletBackup entropyHex

/-- The `for` loop of `exportKeys`: entries in order, first failure aborts,
results collected in order. -/
def processEntries (prims : Prims) (mnemonicPhrase : String) :
    List WalletEntry → Except String (List ExportedKey)
  | [] => .ok []
  | w :: rest => do
      let k ← processEntry prims mnemonicPhrase w
      let ks ← processEntries prims mnemonicPhrase rest
      .ok (k :: ks)

/-- Embedding of `exportKeys` from `src/index.ts`. -/
def exportKeys (prims : Prims) (mnemonicPhrase : String) (backup : SnapBackup) :
    Except String (List ExportedKey) := do
  let mnemonicPhrase := mnemonicPhrase.trim
  let ok ← verifyChecksum prims.keccak256 backup
  if !ok then throw "Invalid backup data, checksum mismatch"
  else processEntries prims mnemonicPhrase backup.wallet

/-! ## Derived notions used by the statements -/

/-- Big-endian interpretation of a byte list as a natural number. -/
def beBytesToNat (bs : List Nat) : Nat :=
  bs.foldl (fun acc b => acc * 256 + b) 0

/-- The element substitution of the array branch of `canonicalSerialize`:
a sentinel element is replaced by `null`. -/
def elemVal (cv : JSValue) : JSValue :=
  if isSentinel cv then .vNull else cv

/-- Rendered elements of an array, in order, with the sentinel-to-`null`
substitution applied (the text each element contributes to the output). -/
def elemStrs : List JSValue → Except String (List String)
  | [] => .ok []
  | cv :: rest => do
      let p ← Except.map jsTemplate (canonicalSerialize (elemVal cv))
      let ps ← elemStrs rest
      .ok (p :: ps)

/-- Comma-join of rendered parts (no brackets). -/
def joinComma : List String → String
  | [] => ""
  | p :: ps => ps.foldl (fun a q => a ++ "," ++ q) p

/-- Code-point sequence of a string (for comparison with the UTF-16
code-unit sequence the sort actually uses). -/
def codePoints (s : String) : List Nat :=
  s.data.map (fun c => c.toNat)

/-! ## Structural equality up to object-member insertion order

`veq a b` holds when `a` and `b` are structurally equal JSON-like values
that differ only in the insertion order of object members.  Object members
may be permuted at every level; element order of arrays is significant.
The relation is restricted to objects with unique keys on the left — every
JavaScript object has unique keys, so this covers exactly the encodable
values the claim ranges over. -/

mutual

def veq : JSValue → JSValue → Prop
  | .vNull, .vNull => True
  | .vBool b, .vBool b2 => b = b2
  | .vNum n, .vNum n2 => n = n2
  | .vStr s, .vStr s2 => s = s2
  | .vUndefined, .vUndefined => True
  | .vSymbol, .vSymbol => True
  | .vArr xs, .vArr ys => veqList xs ys
  | .vObj kvs, .vObj kvs2 =>
      (kvs.map Prod.fst).Nodup ∧ ∃ mid, veqPairs kvs mid ∧ mid.Perm kvs2
  | _, _ => False

def veqList : List JSValue → List JSValue → Prop
  | [], [] => True
  | x :: xs, y :: ys => veq x y ∧ veqList xs ys
  | _, _ => False

def veqPairs : List (String × JSValue) → List (String × JSValue) → Prop
  | [], [] => True
  | (k, v) :: ps, (k2, v2) :: qs => k = k2 ∧ veq v v2 ∧ veqPairs ps qs
  | _, _ => False

end

/-! ## Concrete instances used by witnesses and counterexamples -/

/-- A stand-in hash primitive: every input digests to 32 zero bytes. -/
def keccakZero : List Nat → List Nat := fun _ => List.replicate 32 0

/-- A primitive bundle whose non-hash members always fail; only usable by
code that never reaches them. -/
def primsStub : Prims :=
  { keccak256 := keccakZero
    slip10Derive := fun _ => none
    secretboxOpen := fun _ _ _ => .error "stub"
    utf8Decode := fun _ => ""
    jsonParse := fun _ => .error "stub"
    getPublicKey := fun _ => .error "stub" }

/-- Backup whose stored checksum is the full 64-digit zero digest. -/
def backupZeros : SnapBackup :=
  { version := 1, time := "t", wallet := [],
    hash := String.mk (List.replicate 64 '0') }

/-- Backup whose stored checksum matches no hex digest. -/
def backupBad : SnapBackup :=
  { version := 1, time := "t", wallet := [], hash := "zz" }

/-- Parsed share data holding both nested scalar fields. -/
def shareObj : JSValue :=
  .vObj [("keyShareData", .vObj [("x1", .vStr "02")]),
         ("x2", .vObj [("scalar", .vStr "03")])]

/-- Primitive bundle driving one wallet entry through the whole pipeline:
zero digests, a fixed derived entropy, a successful authenticated open, and
parsed JSON exposing `x1 = 2` and `x2 = 3`. -/
def primsEntry : Prims :=
  { keccak256 := keccakZero
    slip10Derive := fun _ => some "00ff"
    secretboxOpen := fun _ _ _ => .ok []
    utf8Decode := fun _ => ""
    jsonParse := fun _ => .ok shareObj
    getPublicKey := fun _ => .ok (List.replicate 65 1) }

/-- Wallet entry with hex-decodable salt segment, valid nonce and ciphertext
encodings, and a base64 (`ORIGINAL` variant) keyshare blob. -/
def entryOne : WalletEntry :=
  { address := "0xdead", keyshare := "MDI=", remote := "aa.bb.zw" }

/-- Primitive bundle for the derivation-path witness: the digest is the
byte sequence `0, 1, ..., 31`; derivation always finds a private key. -/
def primsRange : Prims :=
  { keccak256 := fun _ => List.range 32
    slip10Derive := fun _ => some "pk"
    secretboxOpen := fun _ _ _ => .error "stub"
    utf8Decode := fun _ => ""
    jsonParse := fun _ => .error "stub"
    getPublicKey := fun _ => .error "stub" }

/-- A one-character string above the basic multilingual plane (U+10000):
UTF-16 encodes it as the surrogate pair `0xD800 0xDC00`. -/
def keyAstral : String := String.mk [Char.ofNat 65536]

/-- A one-character string at U+E000: a single UTF-16 code unit `0xE000`,
which sorts after the surrogate pair of U+10000 although its code point is
smaller. -/
def keyE000 : String := String.mk [Char.ofNat 57344]

/-- Sortedness of a member list under the embedded JavaScript key order. -/
def pairsSorted (l : List (String × JSValue)) : Prop :=
  l.Pairwise (fun p q => keyLe p.1 q.1 = true)

/-! # Theorems

## Order theory of the key comparison -/

theorem lexLe_refl : ∀ a : List Nat, lexLe a a = true
  | [] => rfl
  | x :: xs => by simp [lexLe, lexLe_refl xs]

theorem lexLe_total : ∀ a b : List Nat, lexLe a b = true ∨ lexLe b a = true
  | [], _ => Or.inl rfl
  | _ :: _, [] => Or.inr rfl
  | x :: xs, y :: ys => by
      rcases Nat.lt_trichotomy x y with h | h | h
      · exact Or.inl (by simp [lexLe]; omega)
      · subst h
        rcases lexLe_total xs ys with h2 | h2
        · exact Or.inl (by simp [lexLe, h2])
        · exact Or.inr (by simp [lexLe, h2])
      · exact Or.inr (by simp [lexLe]; omega)

theorem lexLe_trans : ∀ a b c : List Nat,
    lexLe a b = true → lexLe b c = true → lexLe a c = true
  | [], _, _, _, _ => rfl
  | _ :: _, [], _, h, _ => by simp [lexLe] at h
  | _ :: _, _ :: _, [], _, h => by simp [lexLe] at h
  | x :: xs, y :: ys, z :: zs, h1, h2 => by
      simp only [lexLe, Bool.or_eq_true, Bool.and_eq_true, decide_eq_true_eq,
        beq_iff_eq] at h1 h2 ⊢
      rcases h1 with h1 | ⟨rfl, h1⟩
      · rcases h2 with h2 | ⟨rfl, h2⟩
        · exact Or.inl (Nat.lt_trans h1 h2)
        · exact Or.inl h1
      · rcases h2 with h2 | ⟨rfl, h2⟩
        · exact Or.inl h2
        · exact Or.inr ⟨rfl, lexLe_trans xs ys zs h1 h2⟩

theorem lexLe_antisymm : ∀ a b : List Nat,
    lexLe a b = true → lexLe b a = true → a = b
  | [], [], _, _ => rfl
  | [], _ :: _, _, h => by simp [lexLe] at h
  | _ :: _, [], h, _ => by simp [lexLe] at h
  | x :: xs, y :: ys, h1, h2 => by
      simp only [lexLe, Bool.or_eq_true, Bool.and_eq_true, decide_eq_true_eq,
        beq_iff_eq] at h1 h2
      rcases h1 with h1 | ⟨rfl, h1⟩
      · rcases h2 with h2 | ⟨rfl, h2⟩
        · omega
        · omega
      · rcases h2 with h2 | ⟨-, h2⟩
        · omega
        · rw [lexLe_antisymm xs ys h1 h2]

theorem keyLe_total (a b : String) : keyLe a b = true ∨ keyLe b a = true :=
  lexLe_total _ _

theorem keyLe_trans {a b c : String} (h1 : keyLe a b = true)
    (h2 : keyLe b c = true) : keyLe a c = true :=
  lexLe_trans _ _ _ h1 h2

/-! ## Insertion sort: permutation, sortedness, filtering -/

theorem insertPair_perm (p : String × JSValue) (l : List (String × JSValue)) :
    (insertPair p l).Perm (p :: l) := by
  induction l with
  | nil => simp [insertPair]
  | cons q rest ih =>
      simp only [insertPair]
      split
      · exact List.Perm.refl _
      · exact ((ih.cons q).trans (List.Perm.swap p q rest))

theorem sortPairs_perm (l : List (String × JSValue)) : (sortPairs l).Perm l := by
  induction l with
  | nil => simp [sortPairs]
  | cons p rest ih =>
      exact (insertPair_perm p (sortPairs rest)).trans (ih.cons p)

theorem mem_insertPair {x p : String × JSValue} {l : List (String × JSValue)}
    (h : x ∈ insertPair p l) : x = p ∨ x ∈ l := by
  have := (insertPair_perm p l).mem_iff.mp h
  simpa using this

theorem insertPair_sorted {p : String × JSValue} {l : List (String × JSValue)}
    (h : pairsSorted l) : pairsSorted (insertPair p l) := by
  induction l with
  | nil => simp [insertPair, pairsSorted]
  | cons q rest ih =>
      simp only [pairsSorted, List.pairwise_cons] at h
      obtain ⟨hq, hrest⟩ := h
      replace hrest : pairsSorted rest := hrest
      simp only [insertPair]
      split
      · rename_i hpq
        refine List.Pairwise.cons ?_ (List.Pairwise.cons hq hrest)
        intro x hx
        rcases hx with _ | hx
        · exact hpq
        · exact keyLe_trans hpq (hq _ (by assumption))
      · rename_i hpq
        have hqp : keyLe q.1 p.1 = true := by
          rcases keyLe_total p.1 q.1 with h | h
          · exact absurd h hpq
          · exact h
        refine List.Pairwise.cons ?_ (ih hrest)
        intro x hx
        rcases mem_insertPair hx with rfl | hx
        · exact hqp
        · exact hq _ hx

theorem sortPairs_sorted (l : List (String × JSValue)) :
    pairsSorted (sortPairs l) := by
  induction l with
  | nil => exact List.Pairwise.nil
  | cons p rest ih => exact insertPair_sorted ih

theorem insertPair_cons_of_head {p : String × JSValue}
    {l : List (String × JSValue)}
    (h : ∀ x ∈ l, keyLe p.1 x.1 = true) : insertPair p l = p :: l := by
  cases l with
  | nil => rfl
  | cons q rest => simp [insertPair, h q (by simp)]

theorem filter_insertPair (P : String × JSValue → Bool)
    {p : String × JSValue} {l : List (String × JSValue)} (hs : pairsSorted l) :
    (insertPair p l).filter P =
      if P p then insertPair p (l.filter P) else l.filter P := by
  induction l with
  | nil => by_cases hP : P p <;> simp [insertPair, hP]
  | cons q rest ih =>
      simp only [pairsSorted, List.pairwise_cons] at hs
      obtain ⟨hq, hrest⟩ := hs
      replace hrest : pairsSorted rest := hrest
      simp only [insertPair]
      by_cases hpq : keyLe p.1 q.1 = true
      · rw [if_pos hpq]
        by_cases hP : P p
        · have hhead : ∀ x ∈ (q :: rest).filter P, keyLe p.1 x.1 = true := by
            intro x hx
            have hx2 := List.mem_of_mem_filter hx
            rcases List.mem_cons.mp hx2 with rfl | hx3
            · exact hpq
            · exact keyLe_trans hpq (hq _ hx3)
          rw [if_pos hP, insertPair_cons_of_head hhead]
          simp [List.filter_cons, hP]
        · simp [List.filter_cons, hP]
      · rw [if_neg hpq]
        by_cases hP : P p <;> by_cases hPq : P q <;>
          simp [List.filter_cons, hP, hPq, ih hrest, insertPair, hpq]

theorem sortPairs_filter (P : String × JSValue → Bool)
    (l : List (String × JSValue)) :
    sortPairs (l.filter P) = (sortPairs l).filter P := by
  induction l with
  | nil => rfl
  | cons x rest ih =>
      simp only [sortPairs, List.filter_cons]
      by_cases hP : P x
      · simp [hP, sortPairs, ih, filter_insertPair P (sortPairs_sorted rest)]
      · simp [hP, ih, filter_insertPair P (sortPairs_sorted rest)]


/-! ## Small string facts and unfolding lemmas for the serializer -/

theorem str_empty_append (s : String) : "" ++ s = s := by
  apply String.ext
  simp [String.data_append]

theorem cser_null : canonicalSerialize .vNull = .ok (some "null") := by
  simp only [canonicalSerialize]; rfl

theorem cser_undefined : canonicalSerialize .vUndefined = .ok none := by
  simp only [canonicalSerialize]; rfl

theorem cser_symbol : canonicalSerialize .vSymbol = .ok none := by
  simp only [canonicalSerialize]; rfl

theorem cser_bool (b : Bool) :
    canonicalSerialize (.vBool b) = .ok (some (if b then "true" else "false")) := by
  simp only [canonicalSerialize]; rfl

theorem cser_str (s : String) :
    canonicalSerialize (.vStr s) = .ok (some (jsonQuote s)) := by
  simp only [canonicalSerialize]; rfl

theorem cser_finite (r : String) :
    canonicalSerialize (.vNum (.finite r)) = .ok (some r) := by
  simp only [canonicalSerialize]; rfl

theorem cser_arr (elems : List JSValue) :
    canonicalSerialize (.vArr elems) = (do
      let values ← serArr elems 0 ""
      pure (some ("[" ++ values ++ "]"))) := by
  simp only [canonicalSerialize]

theorem cser_obj (members : List (String × JSValue)) :
    canonicalSerialize (.vObj members) = (do
      let values ← serObj (sortPairs members) ""
      pure (some ("\x7b" ++ values ++ "\x7d"))) := by
  simp only [canonicalSerialize]

theorem serArr_nil (ci : Nat) (t : String) : serArr [] ci t = .ok t := by
  simp only [serArr]; rfl

theorem serArr_cons (cv : JSValue) (rest : List JSValue) (ci : Nat) (t : String) :
    serArr (cv :: rest) ci t = (do
      let s ← canonicalSerialize (elemVal cv)
      serArr rest (ci + 1) (t ++ (if ci = 0 then "" else ",") ++ jsTemplate s)) := by
  simp only [serArr, elemVal]

theorem serObj_nil (t : String) : serObj [] t = .ok t := by
  simp only [serObj]; rfl

theorem serObj_cons_skip {k : String} {v : JSValue}
    (rest : List (String × JSValue)) (t : String) (hs : isSentinel v = true) :
    serObj ((k, v) :: rest) t = serObj rest t := by
  simp [serObj, hs]

theorem serObj_cons_keep {k : String} {v : JSValue}
    (rest : List (String × JSValue)) (t : String) (hs : isSentinel v = false) :
    serObj ((k, v) :: rest) t = (do
      let ks ← canonicalSerialize (.vStr k)
      let vs ← canonicalSerialize v
      serObj rest (t ++ (if t.length = 0 then "" else ",") ++
        jsTemplate ks ++ ":" ++ jsTemplate vs)) := by
  simp [serObj, hs]

/-! ## The object serializer skips sentinel members -/

theorem serObj_filter : ∀ (l : List (String × JSValue)) (t : String),
    serObj l t = serObj (l.filter (fun p => !isSentinel p.2)) t
  | [], _ => rfl
  | (k, v) :: rest, t => by
      cases hs : isSentinel v with
      | true =>
          rw [serObj_cons_skip rest t hs, List.filter_cons]
          simp only [hs, Bool.not_true, cond_false, if_false]
          exact serObj_filter rest t
      | false =>
          rw [serObj_cons_keep rest t hs, List.filter_cons]
          simp only [hs, Bool.not_false, cond_true, if_true]
          rw [serObj_cons_keep _ t hs]
          cases hk : canonicalSerialize (.vStr k) with
          | error e => simp [bind, Except.bind, hk]
          | ok ks =>
              cases hv : canonicalSerialize v with
              | error e => simp [bind, Except.bind, hk, hv]
              | ok vs =>
                  simp only [bind, Except.bind, hk, hv]
                  exact serObj_filter rest _

/-! ## The array serializer renders sentinels as null, in place -/

theorem elemStrs_forall2 : ∀ (xs : List JSValue) (parts : List String),
    elemStrs xs = .ok parts →
    List.Forall₂
      (fun cv p => Except.map jsTemplate (canonicalSerialize (elemVal cv)) = .ok p)
      xs parts := by
  intro xs
  induction xs with
  | nil =>
      intro parts h
      simp only [elemStrs, Except.ok.injEq] at h
      subst h
      exact List.Forall₂.nil
  | cons x xs ih =>
      intro parts h
      simp only [elemStrs] at h
      cases hx : Except.map jsTemplate (canonicalSerialize (elemVal x)) with
      | error e => rw [hx] at h; simp [bind, Except.bind] at h
      | ok p =>
          rw [hx] at h
          cases hm : elemStrs xs with
          | error e => rw [hm] at h; simp [bind, Except.bind] at h
          | ok ps =>
              rw [hm] at h
              simp only [bind, Except.bind, Except.ok.injEq] at h
              subst h
              exact List.Forall₂.cons hx (ih ps hm)

theorem serArr_ok {xs : List JSValue} {parts : List String}
    (h : List.Forall₂
      (fun cv p => Except.map jsTemplate (canonicalSerialize (elemVal cv)) = .ok p)
      xs parts) :
    ∀ i t, i ≠ 0 →
      serArr xs i t = .ok (parts.foldl (fun a q => a ++ "," ++ q) t) := by
  induction h with
  | nil => intro i t _; rw [serArr_nil]; rfl
  | @cons x p xs ps hx _ ih =>
      intro i t hi
      cases hc : canonicalSerialize (elemVal x) with
      | error e => rw [hc] at hx; simp [Except.map] at hx
      | ok o =>
          have hp : jsTemplate o = p := by
            rw [hc] at hx
            simpa [Except.map] using hx
          rw [serArr_cons, hc]
          simp only [bind, Except.bind, hp, if_neg hi]
          rw [ih (i + 1) (t ++ "," ++ p) (by omega)]
          simp [List.foldl_cons]

theorem serArr_zero {xs : List JSValue} {parts : List String}
    (h : List.Forall₂
      (fun cv p => Except.map jsTemplate (canonicalSerialize (elemVal cv)) = .ok p)
      xs parts) :
    serArr xs 0 "" = .ok (joinComma parts) := by
  cases h with
  | nil => rw [serArr_nil]; rfl
  | @cons x p xs ps hx hrest =>
      cases hc : canonicalSerialize (elemVal x) with
      | error e => rw [hc] at hx; simp [Except.map] at hx
      | ok o =>
          have hp : jsTemplate o = p := by
            rw [hc] at hx
            simpa [Except.map] using hx
          rw [serArr_cons, hc]
          simp only [bind, Except.bind, hp, if_true, str_empty_append]
          rw [serArr_ok hrest (0 + 1) p (by omega)]
          simp [joinComma]

/-! ## Claim theorems for the canonical encoder -/

/-- C8: in the canonical encoding, every sentinel element of an array
(`undefined` or a symbol) contributes `null` at its own position — the
rendered part list is as long as the array and holds `"null"` exactly at the
sentinel positions — whereas an object member whose value is a sentinel is
omitted entirely: encoding an object equals encoding the object with all
such members removed. -/
theorem c8_array_null_object_drop (xs : List JSValue) (parts : List String)
    (kvs : List (String × JSValue)) :
    (elemStrs xs = .ok parts →
      canonicalSerialize (.vArr xs) = .ok (some ("[" ++ joinComma parts ++ "]")) ∧
      parts.length = xs.length ∧
      ∀ i (hi : i < xs.length) (hp : i < parts.length),
        isSentinel xs[i] = true → parts[i] = "null") ∧
    canonicalSerialize (.vObj kvs) =
      canonicalSerialize (.vObj (kvs.filter (fun p => !isSentinel p.2))) := by
  constructor
  · intro h
    have hf := elemStrs_forall2 xs parts h
    refine ⟨?_, ?_, ?_⟩
    · rw [cser_arr, serArr_zero hf]
      rfl
    · exact (List.Forall₂.length_eq hf).symm
    · intro i hi hp hsent
      have hr := (List.forall₂_iff_get.mp hf).2 i hi hp
      simp only [List.get_eq_getElem] at hr
      rw [show elemVal xs[i] = JSValue.vNull by
        simp only [elemVal, hsent, if_true], cser_null] at hr
      simpa [Except.map, jsTemplate] using hr.symm
  · rw [cser_obj, cser_obj, serObj_filter (sortPairs kvs) "", ← sortPairs_filter]

/-- Witness for C8 at concrete inputs: the array `[undefined, true, symbol]`
renders as `[null,true,null]`, and an object member with a symbol value is
dropped from the encoding. -/
theorem c8_array_null_object_drop_witness :
    elemStrs [JSValue.vUndefined, .vBool true, .vSymbol] =
        .ok ["null", "true", "null"] ∧
    canonicalSerialize (.vArr [JSValue.vUndefined, .vBool true, .vSymbol]) =
        .ok (some ("[" ++ joinComma ["null", "true", "null"] ++ "]")) ∧
    canonicalSerialize (.vObj [("b", JSValue.vSymbol), ("a", .vStr "x")]) =
      canonicalSerialize
        (.vObj ([("b", JSValue.vSymbol), ("a", .vStr "x")].filter
          (fun p => !isSentinel p.2))) := by
  have h : elemStrs [JSValue.vUndefined, .vBool true, .vSymbol] =
      .ok ["null", "true", "null"] := by
    simp [elemStrs, elemVal, isSentinel, cser_null, cser_bool, Except.map,
      bind, Except.bind, jsTemplate]
  exact ⟨h, ((c8_array_null_object_drop _ ["null", "true", "null"] []).1 h).1,
    (c8_array_null_object_drop [] [] _).2⟩

/-- C10: a top-level non-serializable sentinel (`undefined` or a symbol)
makes `canonicalSerialize` return the missing-value result of
`JSON.stringify` — no string and no error — so the `encode(value) → string`
contract is not total over such inputs, while the `null`-substitution and
member-dropping policies apply at nested positions only. -/
theorem c10_top_level_sentinel_passthrough :
    canonicalSerialize .vUndefined = .ok none ∧
    canonicalSerialize .vSymbol = .ok none ∧
    canonicalSerialize (.vArr [.vUndefined]) = .ok (some "[null]") ∧
    canonicalSerialize (.vObj [("a", .vUndefined)]) = .ok (some "\x7b\x7d") := by
  refine ⟨cser_undefined, cser_symbol, ?_, ?_⟩
  · rw [cser_arr, serArr_cons]
    simp only [elemVal, isSentinel, if_true, cser_null, bind, Except.bind]
    rw [serArr_nil]
    rfl
  · rw [cser_obj]
    rw [show sortPairs [("a", JSValue.vUndefined)] = [("a", JSValue.vUndefined)]
      from rfl]
    rw [serObj_cons_skip _ _ (by rfl), serObj_nil]
    rfl

/-! ## The serializer cannot fail on backup projections -/

theorem jsSlice_two_of_append (s : String) : jsSlice ("0x" ++ s) 2 = s := by
  apply String.ext
  simp only [jsSlice, String.data_append]
  rfl

theorem jsSlice_bytesToHex (bs : List Nat) :
    jsSlice (bytesToHex bs) 2 = bytesToHexDigits bs := by
  rw [bytesToHex, jsSlice_two_of_append]

theorem serObj_ok_of_values :
    ∀ (l : List (String × JSValue)),
      (∀ p ∈ l, ∃ o, canonicalSerialize p.2 = .ok o) →
      ∀ t, ∃ r, serObj l t = .ok r := by
  intro l
  induction l with
  | nil => intro _ t; exact ⟨t, serObj_nil t⟩
  | cons p rest ih =>
      intro h t
      obtain ⟨k, v⟩ := p
      cases hs : isSentinel v with
      | true =>
          rw [serObj_cons_skip rest t hs]
          exact ih (fun q hq => h q (List.mem_cons_of_mem _ hq)) t
      | false =>
          rw [serObj_cons_keep rest t hs]
          obtain ⟨o, ho⟩ := h (k, v) (List.mem_cons_self _ _)
          rw [cser_str, ho]
          simp only [bind, Except.bind]
          exact ih (fun q hq => h q (List.mem_cons_of_mem _ hq)) _

theorem serArr_ok_of_values :
    ∀ (xs : List JSValue),
      (∀ cv ∈ xs, ∃ o, canonicalSerialize (elemVal cv) = .ok o) →
      ∀ i t, ∃ r, serArr xs i t = .ok r := by
  intro xs
  induction xs with
  | nil => intro _ i t; exact ⟨t, serArr_nil i t⟩
  | cons cv rest ih =>
      intro h i t
      rw [serArr_cons]
      obtain ⟨o, ho⟩ := h cv (List.mem_cons_self _ _)
      rw [ho]
      simp only [bind, Except.bind]
      exact ih (fun q hq => h q (List.mem_cons_of_mem _ hq)) (i + 1) _

theorem cser_walletEntry_ok (w : WalletEntry) :
    ∃ s, canonicalSerialize (walletEntryValue w) = .ok (some s) := by
  rw [walletEntryValue, cser_obj]
  have hsorted : sortPairs
      [("address", JSValue.vStr w.address), ("keyshare", JSValue.vStr w.keyshare),
       ("remote", JSValue.vStr w.remote)] =
      [("address", JSValue.vStr w.address), ("keyshare", JSValue.vStr w.keyshare),
       ("remote", JSValue.vStr w.remote)] := by
    have h1 : keyLe "address" "keyshare" = true := by decide
    have h2 : keyLe "keyshare" "remote" = true := by decide
    simp [sortPairs, insertPair, h1, h2]
  rw [hsorted]
  have hok : ∀ p ∈ [("address", JSValue.vStr w.address),
      ("keyshare", JSValue.vStr w.keyshare), ("remote", JSValue.vStr w.remote)],
      ∃ o, canonicalSerialize p.2 = .ok o := by
    intro p hp
    rcases List.mem_cons.mp hp with rfl | hp
    · exact ⟨_, cser_str _⟩
    rcases List.mem_cons.mp hp with rfl | hp
    · exact ⟨_, cser_str _⟩
    rcases List.mem_cons.mp hp with rfl | hp
    · exact ⟨_, cser_str _⟩
    · cases hp
  obtain ⟨r, hr⟩ := serObj_ok_of_values _ hok ""
  rw [hr]
  exact ⟨_, rfl⟩

theorem ser_backup_ok (b : SnapBackup) :
    ∃ j, canonicalSerialize (backupWithoutHashValue b) = .ok (some j) := by
  rw [backupWithoutHashValue, cser_obj]
  have hsorted : sortPairs
      [("version", JSValue.vNum (.finite (toString b.version))),
       ("time", JSValue.vStr b.time),
       ("wallet", JSValue.vArr (b.wallet.map walletEntryValue))] =
      [("time", JSValue.vStr b.time),
       ("version", JSValue.vNum (.finite (toString b.version))),
       ("wallet", JSValue.vArr (b.wallet.map walletEntryValue))] := by
    have h1 : keyLe "version" "time" = false := by decide
    have h2 : keyLe "version" "wallet" = true := by decide
    have h3 : keyLe "time" "wallet" = true := by decide
    simp [sortPairs, insertPair, h1, h2, h3]
  rw [hsorted]
  have harr : ∃ o, canonicalSerialize
      (JSValue.vArr (b.wallet.map walletEntryValue)) = .ok o := by
    rw [cser_arr]
    have helems : ∀ cv ∈ b.wallet.map walletEntryValue,
        ∃ o, canonicalSerialize (elemVal cv) = .ok o := by
      intro cv hcv
      obtain ⟨w, _, rfl⟩ := List.mem_map.mp hcv
      obtain ⟨s, hs⟩ := cser_walletEntry_ok w
      exact ⟨some s, by rw [show elemVal (walletEntryValue w) =
        walletEntryValue w from rfl, hs]⟩
    obtain ⟨r, hr⟩ := serArr_ok_of_values _ helems 0 ""
    rw [hr]
    exact ⟨_, rfl⟩
  have hok : ∀ p ∈ [("time", JSValue.vStr b.time),
      ("version", JSValue.vNum (.finite (toString b.version))),
      ("wallet", JSValue.vArr (b.wallet.map walletEntryValue))],
      ∃ o, canonicalSerialize p.2 = .ok o := by
    intro p hp
    rcases List.mem_cons.mp hp with rfl | hp
    · exact ⟨_, cser_str _⟩
    rcases List.mem_cons.mp hp with rfl | hp
    · exact ⟨_, cser_finite _⟩
    rcases List.mem_cons.mp hp with rfl | hp
    · exact harr
    · cases hp
  obtain ⟨r, hr⟩ := serObj_ok_of_values _ hok ""
  rw [hr]
  exact ⟨_, rfl⟩

/-! ## Claim theorems for the checksum verifier and the pipeline gate -/

/-- C1 (amended): `verify` strips an optional leading `0x` from the stored
checksum and compares it, case-sensitively and in full, against the 64
lowercase hex digits of the Keccak-256 digest of the canonical encoding of
the record without its `hash` member.  The two characters dropped from the
computed hash are the `0x` prefix that `bytesToHex` prepends, not two hex
digits of the digest. -/
theorem c1_checksum_comparison (keccak256f : List Nat → List Nat)
    (b : SnapBackup) :
    ∃ json : String,
      canonicalSerialize (backupWithoutHashValue b) = .ok (some json) ∧
      verifyChecksum keccak256f b =
        .ok (bytesToHexDigits (keccak256f (stringToBytes json)) ==
          stripLeading0x b.hash) ∧
      ((bytesToHexDigits (keccak256f (stringToBytes json)) ==
          stripLeading0x b.hash) = true ↔
        bytesToHexDigits (keccak256f (stringToBytes json)) =
          stripLeading0x b.hash) := by
  obtain ⟨j, hj⟩ := ser_backup_ok b
  refine ⟨j, hj, ?_, beq_iff_eq⟩
  simp only [verifyChecksum, hj, bind, Except.bind]
  rw [jsSlice_bytesToHex]
  rfl

/-- Counterexample for C1 as stated: for a record whose stored checksum is
the full 64-digit digest, `verify` returns `true`, yet the stored checksum
differs from the computed digest with its leading two hex characters
dropped (62 digits) — the code removes the `0x` prefix, not two digits. -/
theorem c1_counterexample :
    canonicalSerialize (backupWithoutHashValue backupZeros) =
      .ok (some "\x7b\"time\":\"t\",\"version\":1,\"wallet\":[]\x7d") ∧
    verifyChecksum keccakZero backupZeros = .ok true ∧
    stripLeading0x backupZeros.hash ≠
      jsSlice (bytesToHexDigits (keccakZero (stringToBytes
        "\x7b\"time\":\"t\",\"version\":1,\"wallet\":[]\x7d"))) 2 := by
  have hj : canonicalSerialize (backupWithoutHashValue backupZeros) =
      .ok (some "\x7b\"time\":\"t\",\"version\":1,\"wallet\":[]\x7d") := by
    simp [backupZeros, backupWithoutHashValue, walletEntryValue,
      canonicalSerialize, serObj, serArr, sortPairs, insertPair, keyLe,
      utf16Units, utf16Char, lexLe, isSentinel, jsonQuote, jsonEscapeChar,
      jsTemplate, String.join]
    decide
  refine ⟨hj, ?_, by decide⟩
  rw [verifyChecksum, hj]
  simp only [bind, Except.bind]
  decide

/-- C3: when checksum verification returns `false`, `exportKeys` aborts with
the checksum-mismatch error: the result is that error — no `ExportedKey` is
produced — for every behavior of the derivation, decryption, parsing and
public-key primitives, so no wallet entry is processed. -/
theorem c3_checksum_mismatch_aborts (keccak256f : List Nat → List Nat)
    (m : String) (b : SnapBackup)
    (h : verifyChecksum keccak256f b = .ok false) :
    ∀ prims : Prims, prims.keccak256 = keccak256f →
      exportKeys prims m b = .error "Invalid backup data, checksum mismatch" := by
  intro prims hp
  simp only [exportKeys, hp, h, bind, Except.bind]
  rfl

/-- Witness for C3: a concrete backup with an unmatchable stored checksum is
rejected by `exportKeys` before any entry runs, with all-failing stub
primitives. -/
theorem c3_checksum_mismatch_aborts_witness :
    verifyChecksum keccakZero backupBad = .ok false ∧
    exportKeys primsStub "m" backupBad =
      .error "Invalid backup data, checksum mismatch" := by
  have hj : canonicalSerialize (backupWithoutHashValue backupBad) =
      .ok (some "\x7b\"time\":\"t\",\"version\":1,\"wallet\":[]\x7d") := by
    simp [backupBad, backupWithoutHashValue, walletEntryValue,
      canonicalSerialize, serObj, serArr, sortPairs, insertPair, keyLe,
      utf16Units, utf16Char, lexLe, isSentinel, jsonQuote, jsonEscapeChar,
      jsTemplate, String.join]
    decide
  have h : verifyChecksum keccakZero backupBad = .ok false := by
    rw [verifyChecksum, hj]
    simp only [bind, Except.bind]
    decide
  exact ⟨h, c3_checksum_mismatch_aborts keccakZero "m" backupBad h primsStub rfl⟩

/-! ## Claim theorems for the share decryptor -/

/-- C6 (amended): every failure of `decSnapBackup` — including the
3-component shape check, which sits inside the `try` — surfaces as the
single wrapped error `Failed to decrypt backup data: <cause>`; a record
without exactly three `.`-delimited components yields that wrapper with
cause `Invalid backup data`, so the two failure classes are distinguishable
only by the cause text, not as distinct errors. -/
theorem c6_all_failures_wrapped (prims : Prims) (entropyHex record : String) :
    ((splitDots record).length ≠ 3 →
      decSnapBackup prims entropyHex record =
        .error "Failed to decrypt backup data: Invalid backup data") ∧
    (∀ e, decSnapBackup prims entropyHex record = .error e →
      ∃ cause, e = "Failed to decrypt backup data: " ++ cause) ∧
    (∀ s0 n0 c0 key nb cb cause,
      splitDots record = [s0, n0, c0] →
      sodiumFromHex (if jsStartsWith entropyHex "0x" then jsSlice entropyHex 2
        else entropyHex) = .ok key →
      sodiumFromHex n0 = .ok nb →
      sodiumFromBase64 true false c0 = .ok cb →
      prims.secretboxOpen cb nb (key.take crypto_secretbox_KEYBYTES) =
        .error cause →
      decSnapBackup prims entropyHex record =
        .error ("Failed to decrypt backup data: " ++ cause)) := by
  refine ⟨?_, ?_, ?_⟩
  · intro h
    have hb : decSnapBackupBody prims entropyHex record =
        .error "Invalid backup data" := by
      rw [decSnapBackupBody]
      simp only [if_pos h]
      rfl
    rw [decSnapBackup, hb]
    rfl
  · intro e he
    cases hb : decSnapBackupBody prims entropyHex record with
    | ok r =>
        rw [decSnapBackup, hb] at he
        cases he
    | error c =>
        rw [decSnapBackup, hb] at he
        refine ⟨c, ?_⟩
        cases he
        rfl
  · intro s0 n0 c0 key nb cb cause hsplit hkey hnonce hcipher hopen
    have hb : decSnapBackupBody prims entropyHex record = .error cause := by
      rw [decSnapBackupBody]
      simp only [hsplit, hkey, hnonce, hcipher, hopen, List.length_cons,
        List.length_nil, List.getD, bind, Except.bind]
      norm_num [List.get?]
      rw [hnonce, hcipher]
      exact hopen
    rw [decSnapBackup, hb]

/-- Counterexample for C6 as stated: on a two-component record the thrown
error is not a distinct `MalformedRecord` failure — it is the decryption
failure wrapper itself, with `Invalid backup data` as the attached cause. -/
theorem c6_counterexample :
    decSnapBackup primsStub "aa" "x.y" =
      .error "Failed to decrypt backup data: Invalid backup data" ∧
    jsStartsWith "Failed to decrypt backup data: Invalid backup data"
      "Failed to decrypt backup data: " = true := by
  exact ⟨by decide, by decide⟩

/-- Witness for C6: a concrete four-component record yields the wrapped
shape-check error, and a concrete three-component record whose authenticated
open fails yields the same wrapper around the underlying cause. -/
theorem c6_all_failures_wrapped_witness :
    decSnapBackup primsStub "gg" "a.b.c.d" =
      .error "Failed to decrypt backup data: Invalid backup data" ∧
    decSnapBackup primsStub "aa" "aa.bb.zw" =
      .error ("Failed to decrypt backup data: " ++ "stub") :=
  ⟨(c6_all_failures_wrapped primsStub "gg" "a.b.c.d").1 (by decide),
    (c6_all_failures_wrapped primsStub "aa" "aa.bb.zw").2.2 "aa" "bb" "zw"
      [170] [187] [207] "stub" (by decide) (by decide) (by decide) (by decide)
      rfl⟩

/-! ## Claim theorems for the per-entry salt -/

/-- C4 (amended): for every wallet entry, the salt string handed to the
entropy derivation is `hexToBytes(salt).toString()` — the comma-separated
decimal byte rendering of the hex-decoded first `.`-delimited segment of the
entry's `remote` field (with `hexToBytes` failures propagating) — together
with the fixed snap id and the trimmed mnemonic, not the raw segment
itself. -/
theorem c4_salt_is_decimal_rendering (prims : Prims) (m : String)
    (w : WalletEntry) :
    processEntry prims m w = (do
      let salt ← entropySalt w
      let entropyHex ← getEntropy prims m SNAP_ID salt
      processEntryTail prims w entropyHex) := by
  rw [processEntry, entropySalt]
  cases hb : hexToBytes ((splitDots w.remote).getD 0 "") with
  | error e => simp [bind, Except.bind, hb]
  | ok bs => simp [bind, Except.bind, hb, pure, Except.pure]

/-- Counterexample for C4 as stated: for the remote record
`0001.bb.cc`, the first `.`-delimited segment is `0001`, but the salt
argument actually passed is `0,1`. -/
theorem c4_counterexample :
    entropySalt { address := "0xdead", keyshare := "ks",
                  remote := "0001.bb.cc" } = .ok "0,1" ∧
    (splitDots "0001.bb.cc").getD 0 "" = "0001" ∧
    ("0,1" : String) ≠ "0001" := by
  exact ⟨by decide, by decide, by decide⟩

/-! ## Claim theorems for entropy derivation -/

theorem getD_lt_of_all_lt {l : List Nat} (h : ∀ b ∈ l, b < 256) (i : Nat) :
    l.getD i 0 < 256 := by
  by_cases hi : i < l.length
  · rw [List.getD_eq_getElem l 0 hi]
    exact h _ (List.getElem_mem hi)
  · rw [List.getD_eq_default l 0 (by omega)]
    omega

theorem drop_take_four : ∀ (l : List Nat) (k : Nat), k + 4 ≤ l.length →
    (l.drop k).take 4 =
      [l.getD k 0, l.getD (k + 1) 0, l.getD (k + 2) 0, l.getD (k + 3) 0] := by
  intro l k
  induction k generalizing l with
  | zero =>
      intro h
      match l with
      | [] => simp at h
      | [_] => simp at h
      | [_, _] => simp at h
      | [_, _, _] => simp at h
      | a :: b :: c :: d :: rest => simp [List.getD]
  | succ k ih =>
      intro h
      cases l with
      | nil => simp at h
      | cons x t =>
          simp only [List.drop_succ_cons, List.getD_cons_succ]
          exact ih t (by simp at h; omega)

theorem getUint32_eq_beBytes (l : List Nat) (k : Nat) (h : k + 4 ≤ l.length) :
    getUint32 l k = beBytesToNat ((l.drop k).take 4) := by
  rw [drop_take_four l k h]
  simp [getUint32, beBytesToNat, List.foldl]

theorem getUint32_lt {l : List Nat} (h : ∀ b ∈ l, b < 256) (k : Nat) :
    getUint32 l k < 4294967296 := by
  have h0 := getD_lt_of_all_lt h k
  have h1 := getD_lt_of_all_lt h (k + 1)
  have h2 := getD_lt_of_all_lt h (k + 2)
  have h3 := getD_lt_of_all_lt h (k + 3)
  simp only [getUint32]
  omega

theorem hardened_eq : HARDENED_VALUE = 2 ^ 31 := by decide

theorem lor_hardened_testBit31 (a : Nat) :
    (Nat.lor a HARDENED_VALUE).testBit 31 = true := by
  have h : Nat.lor a HARDENED_VALUE = a ||| HARDENED_VALUE := rfl
  rw [h, Nat.testBit_lor, hardened_eq, Nat.testBit_two_pow_self]
  simp

/-- C5: for every mnemonic, domain identifier and salt, the derivation path
handed to the SLIP-10 primitive is the BIP-39 seed component of the
mnemonic, one fixed hardened magic index, and exactly 8 hardened indices
obtained by splitting `Keccak256(domainId || Keccak256(salt))` into eight
consecutive big-endian 32-bit words, each with its most significant bit set
(every index lies in `[2^31, 2^32)`); `getEntropy` fails with the
derivation-failure error exactly when the derived node yields no private
key. -/
theorem c5_derivation_path (prims : Prims) (m snapId salt : String)
    (hlen : (prims.keccak256 (stringToBytes snapId ++
      prims.keccak256 (stringToBytes salt))).length = 32)
    (hbyte : ∀ b ∈ prims.keccak256 (stringToBytes snapId ++
      prims.keccak256 (stringToBytes salt)), b < 256) :
    ∃ indices : List Nat,
      getUint32Array (prims.keccak256 (stringToBytes snapId ++
        prims.keccak256 (stringToBytes salt))) = indices ∧
      indices.length = 8 ∧
      (∀ i, i < 8 →
        indices.getD i 0 =
          Nat.lor (beBytesToNat (((prims.keccak256 (stringToBytes snapId ++
            prims.keccak256 (stringToBytes salt))).drop (4 * i)).take 4))
            (2 ^ 31)) ∧
      (∀ w ∈ indices, 2 ^ 31 ≤ w ∧ w < 2 ^ 32) ∧
      2 ^ 31 ≤ MAGIC_VALUE ∧ MAGIC_VALUE < 2 ^ 32 ∧
      getEntropy prims m snapId salt =
        (match prims.slip10Derive (("bip39:" ++ m) ::
            getDerivationPath (MAGIC_VALUE :: indices)) with
         | some pk => .ok pk
         | none => .error "Failed to derive private key.") ∧
      getDerivationPath (MAGIC_VALUE :: indices) =
        ("bip32:" ++ toString (MAGIC_VALUE - 2 ^ 31) ++ "\x27") ::
          indices.map (fun i => "bip32:" ++ toString (i - 2 ^ 31) ++ "\x27") := by
  refine ⟨_, rfl, ?_, ?_, ?_, by decide, by decide, ?_, ?_⟩
  · simp [getUint32Array]
  · intro i hi
    have hge : i < (List.range 8).length := by simp; omega
    rw [getUint32Array, List.getD_eq_getElem _ 0 (by simpa using hi)]
    simp only [List.getElem_map, List.getElem_range]
    rw [Nat.mod_eq_of_lt (getUint32_lt hbyte _)]
    rw [getUint32_eq_beBytes _ _ (by omega), hardened_eq]
    rw [Nat.mul_comm i 4]
  · intro w hw
    rw [getUint32Array] at hw
    obtain ⟨i, hi, rfl⟩ := List.mem_map.mp hw
    constructor
    · exact Nat.testBit_implies_ge (lor_hardened_testBit31 _)
    · have h1 : getUint32 (prims.keccak256 (stringToBytes snapId ++
          prims.keccak256 (stringToBytes salt))) (i * 4) % 4294967296 <
          2 ^ 32 := by
        have := Nat.mod_lt (getUint32 (prims.keccak256 (stringToBytes snapId ++
          prims.keccak256 (stringToBytes salt))) (i * 4))
          (show (4294967296 : Nat) > 0 by omega)
        omega
      have h2 : HARDENED_VALUE < 2 ^ 32 := by decide
      exact Nat.bitwise_lt_two_pow h1 h2
  · rfl
  · rw [getDerivationPath, List.map_cons, hardened_eq]

/-- Witness for C5 with the digest `0, 1, ..., 31` and an always-succeeding
derivation primitive. -/
theorem c5_derivation_path_witness :
    ∃ indices : List Nat,
      getUint32Array (primsRange.keccak256 (stringToBytes "s" ++
        primsRange.keccak256 (stringToBytes "t"))) = indices ∧
      indices.length = 8 ∧
      (∀ i, i < 8 →
        indices.getD i 0 =
          Nat.lor (beBytesToNat (((primsRange.keccak256 (stringToBytes "s" ++
            primsRange.keccak256 (stringToBytes "t"))).drop (4 * i)).take 4))
            (2 ^ 31)) ∧
      (∀ w ∈ indices, 2 ^ 31 ≤ w ∧ w < 2 ^ 32) ∧
      2 ^ 31 ≤ MAGIC_VALUE ∧ MAGIC_VALUE < 2 ^ 32 ∧
      getEntropy primsRange "m" "s" "t" =
        (match primsRange.slip10Derive (("bip39:" ++ "m") ::
            getDerivationPath (MAGIC_VALUE :: indices)) with
         | some pk => .ok pk
         | none => .error "Failed to derive private key.") ∧
      getDerivationPath (MAGIC_VALUE :: indices) =
        ("bip32:" ++ toString (MAGIC_VALUE - 2 ^ 31) ++ "\x27") ::
          indices.map (fun i => "bip32:" ++ toString (i - 2 ^ 31) ++ "\x27") :=
  c5_derivation_path primsRange "m" "s" "t" (by decide) (by decide)

/-! ## Claim theorems for share combination -/

/-- Unfolding of one successful pass through the entry pipeline: when every
stage produces the given intermediate values, the entry yields the claimed
address paired with the hex rendering of `(x1 * x2) mod n`. -/
theorem processEntry_ok_of_steps (prims : Prims) (m : String) (w : WalletEntry)
    (saltBytes : List Nat) (entropyHex : String) (data app : List Nat)
    (snapKeyshare appData : JSValue) (x1Hex x2Hex : String) (x1 x2 : Nat)
    (publicKey : List Nat)
    (h1 : hexToBytes ((splitDots w.remote).getD 0 "") = .ok saltBytes)
    (h2 : getEntropy prims m SNAP_ID (uint8ArrayToString saltBytes) =
      .ok entropyHex)
    (h3 : decSnapBackup prims entropyHex w.remote = .ok data)
    (h4 : prims.jsonParse (prims.utf8Decode data) = .ok snapKeyshare)
    (h5 : jsGet2 snapKeyshare "keyShareData" "x1" = .ok (.vStr x1Hex))
    (h6 : hexToBigInt x1Hex = .ok x1)
    (h7 : sodiumFromBase64 false true w.keyshare = .ok app)
    (h8 : prims.jsonParse (prims.utf8Decode app) = .ok appData)
    (h9 : jsGet2 appData "x2" "scalar" = .ok (.vStr x2Hex))
    (h10 : hexToBigInt x2Hex = .ok x2)
    (h11 : prims.getPublicKey (bigIntToBytes (x1 * x2 % secp256k1n)) =
      .ok publicKey) :
    processEntry prims m w =
      .ok { address := w.address,
            privateKey := bigIntToHex (x1 * x2 % secp256k1n) } := by
  simp only [processEntry, processEntryTail, h1, h2, h3, h4, h5, h6, h7, h8,
    h9, h10, h11, hexToBigIntValue, bind, Except.bind]
  rfl

/-- C2: whenever the pipeline's stages succeed — `x1` parsed as an
arbitrary-precision integer from the decrypted remote plaintext's nested
`keyShareData.x1` hex field and `x2` from the base64-decoded keyshare blob's
nested `x2.scalar` hex field — the private key placed in the `ExportedKey`
is the hex rendering of `(x1 * x2) mod n`, with `n` the secp256k1 group
order. -/
theorem c2_private_key_is_product_mod_n (prims : Prims) (m : String)
    (w : WalletEntry)
    (saltBytes : List Nat) (entropyHex : String) (data app : List Nat)
    (snapKeyshare appData : JSValue) (x1Hex x2Hex : String) (x1 x2 : Nat)
    (publicKey : List Nat)
    (h1 : hexToBytes ((splitDots w.remote).getD 0 "") = .ok saltBytes)
    (h2 : getEntropy prims m SNAP_ID (uint8ArrayToString saltBytes) =
      .ok entropyHex)
    (h3 : decSnapBackup prims entropyHex w.remote = .ok data)
    (h4 : prims.jsonParse (prims.utf8Decode data) = .ok snapKeyshare)
    (h5 : jsGet2 snapKeyshare "keyShareData" "x1" = .ok (.vStr x1Hex))
    (h6 : hexToBigInt x1Hex = .ok x1)
    (h7 : sodiumFromBase64 false true w.keyshare = .ok app)
    (h8 : prims.jsonParse (prims.utf8Decode app) = .ok appData)
    (h9 : jsGet2 appData "x2" "scalar" = .ok (.vStr x2Hex))
    (h10 : hexToBigInt x2Hex = .ok x2)
    (h11 : prims.getPublicKey (bigIntToBytes (x1 * x2 % secp256k1n)) =
      .ok publicKey) :
    processEntry prims m w =
      .ok { address := w.address,
            privateKey := bigIntToHex (x1 * x2 % secp256k1n) } ∧
    secp256k1n =
      0xFFFFFFFFFFFFFFFFFFFFFFFFFFFFFFFEBAAEDCE6AF48A03BBFD25E8CD0364141 :=
  ⟨processEntry_ok_of_steps prims m w saltBytes entropyHex data app
    snapKeyshare appData x1Hex x2Hex x1 x2 publicKey
    h1 h2 h3 h4 h5 h6 h7 h8 h9 h10 h11, rfl⟩

/-- Witness for C2: a concrete entry whose shares parse to `x1 = 2` and
`x2 = 3` exports the private key `0x6 = (2 * 3) mod n`. -/
theorem c2_private_key_is_product_mod_n_witness :
    processEntry primsEntry "m" entryOne =
      .ok { address := "0xdead",
            privateKey := bigIntToHex (2 * 3 % secp256k1n) } ∧
    secp256k1n =
      0xFFFFFFFFFFFFFFFFFFFFFFFFFFFFFFFEBAAEDCE6AF48A03BBFD25E8CD0364141 :=
  c2_private_key_is_product_mod_n primsEntry "m" entryOne
    [170] "00ff" [] [48, 50] shareObj shareObj "02" "03" 2 3
    (List.replicate 65 1)
    (by decide) (by decide) (by decide) rfl rfl (by decide) (by decide)
    rfl rfl (by decide) rfl

/-- C7: when the pipeline stages succeed but the address recomputed from the
combined key differs from the entry's claimed address, processing still
succeeds — the mismatch is only reported — and the `ExportedKey` carries the
claimed address from the backup, not the recomputed one. -/
theorem c7_address_mismatch_not_fatal (prims : Prims) (m : String)
    (w : WalletEntry)
    (saltBytes : List Nat) (entropyHex : String) (data app : List Nat)
    (snapKeyshare appData : JSValue) (x1Hex x2Hex : String) (x1 x2 : Nat)
    (publicKey : List Nat)
    (h1 : hexToBytes ((splitDots w.remote).getD 0 "") = .ok saltBytes)
    (h2 : getEntropy prims m SNAP_ID (uint8ArrayToString saltBytes) =
      .ok entropyHex)
    (h3 : decSnapBackup prims entropyHex w.remote = .ok data)
    (h4 : prims.jsonParse (prims.utf8Decode data) = .ok snapKeyshare)
    (h5 : jsGet2 snapKeyshare "keyShareData" "x1" = .ok (.vStr x1Hex))
    (h6 : hexToBigInt x1Hex = .ok x1)
    (h7 : sodiumFromBase64 false true w.keyshare = .ok app)
    (h8 : prims.jsonParse (prims.utf8Decode app) = .ok appData)
    (h9 : jsGet2 appData "x2" "scalar" = .ok (.vStr x2Hex))
    (h10 : hexToBigInt x2Hex = .ok x2)
    (h11 : prims.getPublicKey (bigIntToBytes (x1 * x2 % secp256k1n)) =
      .ok publicKey)
    (hmis : "0x" ++ jsSlice (bytesToHex (prims.keccak256 (publicKey.drop 1))) 26 ≠
      w.address) :
    ∃ k : ExportedKey,
      processEntry prims m w = .ok k ∧
      k.address = w.address ∧
      k.address ≠
        "0x" ++ jsSlice (bytesToHex (prims.keccak256 (publicKey.drop 1))) 26 :=
  ⟨{ address := w.address, privateKey := bigIntToHex (x1 * x2 % secp256k1n) },
    processEntry_ok_of_steps prims m w saltBytes entropyHex data app
      snapKeyshare appData x1Hex x2Hex x1 x2 publicKey
      h1 h2 h3 h4 h5 h6 h7 h8 h9 h10 h11,
    rfl, Ne.symm hmis⟩

/-- Witness for C7: with an all-zero digest the recomputed address is
`0x` + 40 zero digits, which differs from the claimed `0xdead`; the entry
still exports, carrying `0xdead`. -/
theorem c7_address_mismatch_not_fatal_witness :
    ∃ k : ExportedKey,
      processEntry primsEntry "m" entryOne = .ok k ∧
      k.address = entryOne.address ∧
      k.address ≠ "0x" ++ jsSlice (bytesToHex (primsEntry.keccak256
        ((List.replicate 65 1).drop 1))) 26 :=
  c7_address_mismatch_not_fatal primsEntry "m" entryOne
    [170] "00ff" [] [48, 50] shareObj shareObj "02" "03" 2 3
    (List.replicate 65 1)
    (by decide) (by decide) (by decide) rfl rfl (by decide) (by decide)
    rfl rfl (by decide) rfl (by decide)

/-! ## Injectivity of the UTF-16 encoding and antisymmetry of the key order -/

theorem char_toNat_inj {c1 c2 : Char} (h : c1.toNat = c2.toNat) : c1 = c2 :=
  Char.eq_of_val_eq (UInt32.ext h)

theorem char_valid (c : Char) :
    c.toNat < 55296 ∨ (57343 < c.toNat ∧ c.toNat < 1114112) := c.valid

theorem utf16Char_ne_nil (c : Char) : utf16Char c ≠ [] := by
  unfold utf16Char
  split <;> simp

theorem utf16Char_append_inj : ∀ {c1 c2 : Char} {t1 t2 : List Nat},
    utf16Char c1 ++ t1 = utf16Char c2 ++ t2 → c1 = c2 ∧ t1 = t2 := by
  intro c1 c2 t1 t2 h
  have v1 := char_valid c1
  have v2 := char_valid c2
  by_cases h1 : c1.toNat < 65536 <;> by_cases h2 : c2.toNat < 65536
  · simp only [utf16Char, if_pos h1, if_pos h2, List.cons_append,
      List.nil_append, List.cons.injEq] at h
    exact ⟨char_toNat_inj h.1, h.2⟩
  · simp only [utf16Char, if_pos h1, if_neg h2, List.cons_append,
      List.nil_append, List.cons.injEq] at h
    exact absurd h.1 (by omega)
  · simp only [utf16Char, if_neg h1, if_pos h2, List.cons_append,
      List.nil_append, List.cons.injEq] at h
    exact absurd h.1 (by omega)
  · simp only [utf16Char, if_neg h1, if_neg h2, List.cons_append,
      List.nil_append, List.cons.injEq] at h
    obtain ⟨hhi, hlo, ht⟩ := h
    exact ⟨char_toNat_inj (by omega), ht⟩

theorem utf16_flat_inj : ∀ (l1 l2 : List Char),
    (l1.map utf16Char).flatten = (l2.map utf16Char).flatten → l1 = l2
  | [], [], _ => rfl
  | [], c :: l2, h => by
      simp only [List.map_nil, List.flatten_nil, List.map_cons,
        List.flatten_cons] at h
      exact absurd h.symm (by simp [utf16Char_ne_nil c])
  | c :: l1, [], h => by
      simp only [List.map_nil, List.flatten_nil, List.map_cons,
        List.flatten_cons] at h
      exact absurd h (by simp [utf16Char_ne_nil c])
  | c1 :: l1, c2 :: l2, h => by
      simp only [List.map_cons, List.flatten_cons] at h
      obtain ⟨hc, ht⟩ := utf16Char_append_inj h
      rw [hc, utf16_flat_inj l1 l2 ht]

theorem utf16Units_inj {s1 s2 : String} (h : utf16Units s1 = utf16Units s2) :
    s1 = s2 :=
  String.ext (utf16_flat_inj s1.data s2.data h)

theorem keyLe_refl (a : String) : keyLe a a = true :=
  lexLe_refl _

theorem keyLe_antisymm {a b : String} (h1 : keyLe a b = true)
    (h2 : keyLe b a = true) : a = b :=
  utf16Units_inj (lexLe_antisymm _ _ h1 h2)

/-! ## A sorted member list with unique keys is determined by its members -/

theorem sorted_perm_nodup_eq : ∀ {l1 l2 : List (String × JSValue)},
    pairsSorted l1 → pairsSorted l2 → l1.Perm l2 →
    (l1.map Prod.fst).Nodup → l1 = l2 := by
  intro l1
  induction l1 with
  | nil =>
      intro l2 _ _ hp _
      exact (hp.symm.eq_nil).symm ▸ rfl
  | cons p t ih =>
      intro l2 hs1 hs2 hp hd
      cases l2 with
      | nil => exact absurd hp.eq_nil (by simp)
      | cons q t2 =>
          have hqmem : q ∈ p :: t := hp.mem_iff.mpr (List.mem_cons_self q t2)
          have hpmem : p ∈ q :: t2 := hp.mem_iff.mp (List.mem_cons_self p t)
          have hpq : keyLe p.1 q.1 = true := by
            rcases List.mem_cons.mp hqmem with rfl | hq
            · exact keyLe_refl _
            · exact (List.pairwise_cons.mp hs1).1 q hq
          have hqp : keyLe q.1 p.1 = true := by
            rcases List.mem_cons.mp hpmem with heq | hq
            · rw [heq]; exact keyLe_refl _
            · exact (List.pairwise_cons.mp hs2).1 p hq
          have hkey : p.1 = q.1 := keyLe_antisymm hpq hqp
          have hqe : q = p := by
            rcases List.mem_cons.mp hqmem with rfl | hq
            · rfl
            · exfalso
              have hmem : q.1 ∈ t.map Prod.fst := List.mem_map_of_mem Prod.fst hq
              rw [← hkey] at hmem
              simp only [List.map_cons, List.nodup_cons] at hd
              exact hd.1 hmem
          subst hqe
          have ht : t.Perm t2 := hp.cons_inv
          rw [ih (List.pairwise_cons.mp hs1).2 (List.pairwise_cons.mp hs2).2 ht
            (by simp only [List.map_cons, List.nodup_cons] at hd; exact hd.2)]

/-! ## The serializers are congruent along key-preserving pointwise
equivalences -/

/-- The pointwise relation carried through the object pipeline: equal keys,
equal serializations, equal sentinel status. -/
def pairRel (p q : String × JSValue) : Prop :=
  p.1 = q.1 ∧ canonicalSerialize p.2 = canonicalSerialize q.2 ∧
    isSentinel p.2 = isSentinel q.2

theorem insertPair_forall2 {p q : String × JSValue}
    {l1 l2 : List (String × JSValue)} (hpq : pairRel p q)
    (h : List.Forall₂ pairRel l1 l2) :
    List.Forall₂ pairRel (insertPair p l1) (insertPair q l2) := by
  induction h with
  | nil => exact List.Forall₂.cons hpq List.Forall₂.nil
  | @cons x y t1 t2 hxy hrest ih =>
      simp only [insertPair]
      rw [hpq.1, hxy.1]
      split
      · exact List.Forall₂.cons hpq (List.Forall₂.cons hxy hrest)
      · exact List.Forall₂.cons hxy ih

theorem sortPairs_forall2 {l1 l2 : List (String × JSValue)}
    (h : List.Forall₂ pairRel l1 l2) :
    List.Forall₂ pairRel (sortPairs l1) (sortPairs l2) := by
  induction h with
  | nil => exact List.Forall₂.nil
  | cons hxy hrest ih => exact insertPair_forall2 hxy ih

theorem forall2_keys_eq : ∀ {l1 l2 : List (String × JSValue)},
    List.Forall₂ pairRel l1 l2 → l1.map Prod.fst = l2.map Prod.fst := by
  intro l1 l2 h
  induction h with
  | nil => rfl
  | cons hxy _ ih => simp only [List.map_cons, hxy.1, ih]

theorem serObj_congr {l1 l2 : List (String × JSValue)}
    (h : List.Forall₂ pairRel l1 l2) : ∀ t, serObj l1 t = serObj l2 t := by
  induction h with
  | nil => intro t; rfl
  | @cons x y t1 t2 hxy hrest ih =>
      intro t
      obtain ⟨k, v⟩ := x
      obtain ⟨k2, v2⟩ := y
      obtain ⟨hk, hser, hsent⟩ := hxy
      cases hs : isSentinel v with
      | true =>
          rw [serObj_cons_skip t1 t hs,
            serObj_cons_skip t2 t (by rw [← hsent]; exact hs)]
          exact ih t
      | false =>
          rw [serObj_cons_keep t1 t hs,
            serObj_cons_keep t2 t (by rw [← hsent]; exact hs)]
          simp only at hk hser
          rw [hk, hser]
          cases hck : canonicalSerialize (.vStr k2) with
          | error e => simp [bind, Except.bind, hck]
          | ok ks =>
              cases hcv : canonicalSerialize v2 with
              | error e => simp [bind, Except.bind, hck, hcv]
              | ok vs =>
                  simp only [bind, Except.bind, hck, hcv]
                  exact ih _

theorem serArr_congr {xs ys : List JSValue}
    (h : List.Forall₂
      (fun a b => canonicalSerialize (elemVal a) = canonicalSerialize (elemVal b))
      xs ys) : ∀ i t, serArr xs i t = serArr ys i t := by
  induction h with
  | nil => intro i t; rfl
  | @cons x y t1 t2 hxy hrest ih =>
      intro i t
      rw [serArr_cons, serArr_cons, hxy]
      cases hc : canonicalSerialize (elemVal y) with
      | error e => simp [bind, Except.bind, hc]
      | ok o =>
          simp only [bind, Except.bind, hc]
          exact ih _ _

/-! ## Structural equivalence up to member order gives equal encodings -/

theorem veq_isSentinel : ∀ {a b : JSValue}, veq a b → isSentinel a = isSentinel b := by
  intro a b h
  cases a <;> cases b <;> first
    | rfl
    | exact (h : False).elim

theorem veqList_forall2 (n : Nat)
    (ih : ∀ a b, sizeOf a ≤ n → veq a b →
      canonicalSerialize a = canonicalSerialize b) :
    ∀ xs ys, sizeOf xs ≤ n → veqList xs ys →
      List.Forall₂
        (fun a b => canonicalSerialize (elemVal a) = canonicalSerialize (elemVal b))
        xs ys := by
  intro xs
  induction xs with
  | nil =>
      intro ys _ hv
      cases ys with
      | nil => exact List.Forall₂.nil
      | cons y t => exact (hv : False).elim
  | cons x t ihl =>
      intro ys hsz hv
      cases ys with
      | nil => exact (hv : False).elim
      | cons y t2 =>
          obtain ⟨hxy, ht⟩ := (hv : veq x y ∧ veqList t t2)
          have hszx : sizeOf x ≤ n := by
            have := one_le_sizeOf_list t
            simp only [List.cons.sizeOf_spec] at hsz
            omega
          have hszt : sizeOf t ≤ n := by
            have := JSValue.one_le_sizeOf x
            simp only [List.cons.sizeOf_spec] at hsz
            omega
          refine List.Forall₂.cons ?_ (ihl t2 hszt ht)
          cases hs : isSentinel x with
          | true =>
              have hs2 : isSentinel y = true := by
                rw [← veq_isSentinel hxy]; exact hs
              simp only [elemVal, hs, hs2, if_true]
          | false =>
              have hs2 : isSentinel y = false := by
                rw [← veq_isSentinel hxy]; exact hs
              simp only [elemVal, hs, hs2, Bool.false_eq_true, if_false]
              exact ih x y hszx hxy

theorem veqPairs_forall2 (n : Nat)
    (ih : ∀ a b, sizeOf a ≤ n → veq a b →
      canonicalSerialize a = canonicalSerialize b) :
    ∀ ps qs, sizeOf ps ≤ n → veqPairs ps qs → List.Forall₂ pairRel ps qs := by
  intro ps
  induction ps with
  | nil =>
      intro qs _ hv
      cases qs with
      | nil => exact List.Forall₂.nil
      | cons q t => exact (hv : False).elim
  | cons p t ihl =>
      intro qs hsz hv
      obtain ⟨k, v⟩ := p
      cases qs with
      | nil => exact (hv : False).elim
      | cons q t2 =>
          obtain ⟨k2, v2⟩ := q
          obtain ⟨hk, hval, ht⟩ := (hv : k = k2 ∧ veq v v2 ∧ veqPairs t t2)
          have hszv : sizeOf v ≤ n := by
            have := one_le_sizeOf_list t
            simp only [List.cons.sizeOf_spec, Prod.mk.sizeOf_spec] at hsz
            omega
          have hszt : sizeOf t ≤ n := by
            have := JSValue.one_le_sizeOf v
            simp only [List.cons.sizeOf_spec, Prod.mk.sizeOf_spec] at hsz
            omega
          exact List.Forall₂.cons
            ⟨hk, ih v v2 hszv hval, veq_isSentinel hval⟩
            (ihl t2 hszt ht)

theorem veq_ser_bound : ∀ n, ∀ a b : JSValue, sizeOf a ≤ n → veq a b →
    canonicalSerialize a = canonicalSerialize b := by
  intro n
  induction n with
  | zero =>
      intro a b hsz _
      have := JSValue.one_le_sizeOf a
      omega
  | succ n ih =>
      intro a b hsz hv
      cases a <;> cases b <;> try exact (hv : False).elim
      case vNull.vNull => rfl
      case vBool.vBool b1 b2 => rw [(hv : b1 = b2)]
      case vNum.vNum n1 n2 => rw [(hv : n1 = n2)]
      case vStr.vStr s1 s2 => rw [(hv : s1 = s2)]
      case vUndefined.vUndefined => rfl
      case vSymbol.vSymbol => rfl
      case vArr.vArr xs ys =>
          rw [cser_arr, cser_arr]
          have hszxs : sizeOf xs ≤ n := by
            simp only [JSValue.vArr.sizeOf_spec] at hsz
            omega
          rw [serArr_congr (veqList_forall2 n ih xs ys hszxs (hv : veqList xs ys)) 0 ""]
      case vObj.vObj kvs kvs2 =>
          obtain ⟨hnd, mid, hpl, hperm⟩ :=
            (hv : (kvs.map Prod.fst).Nodup ∧
              ∃ mid, veqPairs kvs mid ∧ mid.Perm kvs2)
          rw [cser_obj, cser_obj]
          have hszk : sizeOf kvs ≤ n := by
            simp only [JSValue.vObj.sizeOf_spec] at hsz
            omega
          have hf := veqPairs_forall2 n ih kvs mid hszk hpl
          have h1 : serObj (sortPairs kvs) "" = serObj (sortPairs mid) "" :=
            serObj_congr (sortPairs_forall2 hf) ""
          have hnd_mid : (mid.map Prod.fst).Nodup := by
            rw [← forall2_keys_eq hf]; exact hnd
          have hnd_sorted : ((sortPairs mid).map Prod.fst).Nodup :=
            (((sortPairs_perm mid).map Prod.fst).nodup_iff).mpr hnd_mid
          have h2 : sortPairs mid = sortPairs kvs2 :=
            sorted_perm_nodup_eq (sortPairs_sorted mid) (sortPairs_sorted kvs2)
              ((sortPairs_perm mid).trans (hperm.trans (sortPairs_perm kvs2).symm))
              hnd_sorted
          rw [h1, h2]

/-- C9 (amended): canonical encoding is deterministic: any two structurally
equal values that differ only in the insertion order of their object members
encode to byte-identical strings.  Keys are emitted sorted ascending by
UTF-16 code-unit sequence — which coincides with code-point order for keys
in the basic multilingual plane but not beyond it — with no whitespace. -/
theorem c9_insertion_order_invariance (a b : JSValue) (h : veq a b) :
    canonicalSerialize a = canonicalSerialize b :=
  veq_ser_bound (sizeOf a) a b (Nat.le_refl _) h

/-- Counterexample for C9's key-order clause as stated: with the keys
U+E000 (one code unit `0xE000`) and U+10000 (surrogate pair `0xD800 0xDC00`),
the encoder emits the U+10000 key first although its code point is the
larger one — keys are ordered by UTF-16 code units, not by code points. -/
theorem c9_counterexample :
    canonicalSerialize (.vObj [(keyE000, .vNull), (keyAstral, .vNull)]) =
      .ok (some ("\x7b" ++ jsonQuote keyAstral ++ ":null," ++
        jsonQuote keyE000 ++ ":null\x7d")) ∧
    lexLe (codePoints keyE000) (codePoints keyAstral) = true ∧
    codePoints keyE000 ≠ codePoints keyAstral ∧
    jsonQuote keyAstral ≠ jsonQuote keyE000 := by
  refine ⟨?_, by decide, by decide, by decide⟩
  simp [canonicalSerialize, serObj, sortPairs, insertPair, keyLe, utf16Units,
    utf16Char, lexLe, isSentinel, keyE000, keyAstral, jsonQuote,
    jsonEscapeChar, jsTemplate, String.join]
  decide

/-- Witness for C9: two concrete two-member objects differing only in member
order are `veq`-equivalent and encode identically. -/
theorem c9_insertion_order_invariance_witness :
    veq (.vObj [("b", .vNum (.finite "1")), ("a", .vStr "x")])
      (.vObj [("a", .vStr "x"), ("b", .vNum (.finite "1"))]) ∧
    canonicalSerialize (.vObj [("b", .vNum (.finite "1")), ("a", .vStr "x")]) =
      canonicalSerialize (.vObj [("a", .vStr "x"), ("b", .vNum (.finite "1"))]) := by
  have hv : veq (.vObj [("b", .vNum (.finite "1")), ("a", .vStr "x")])
      (.vObj [("a", .vStr "x"), ("b", .vNum (.finite "1"))]) :=
    ⟨by decide, [("b", .vNum (.finite "1")), ("a", .vStr "x")],
      ⟨rfl, rfl, rfl, rfl, trivial⟩, List.Perm.swap _ _ _⟩
  exact ⟨hv, c9_insertion_order_invariance _ _ hv⟩
